import Mathlib

/-!
Verification development for the email-previewer feature-extraction and
compatibility-classification core.

Shallow embedding of:
  - src/lib/caniemail.ts      (support resolver, summary, classifier)
  - src/lib/feature-extractor.ts (markup feature extractor)
  - the reference index builders (buildCssPropertyMap, buildHtmlElementMap,
    buildHtmlAttributeMap)

JavaScript strings are modelled as Lean `String`; JS `Map`/`Set` as
insertion-ordered association lists / lists; JS objects with string keys as
association lists (keys unique).  JS regular-expression scans are embedded as
explicit character-level scanners implementing the leftmost-match semantics of
`RegExp.exec` with the `g` flag (after a match the scan resumes at the end of
the match; on failure at a position it moves one character right).  All the
regexes of the source have character classes disjoint from the characters
that follow them in the pattern, so greedy matching without backtracking is
exact; this is noted per scanner.
-/

/-- JS `\s` whitespace class (ASCII part plus NBSP and BOM, which cover every
input this code ever sees; the remaining Unicode space code points are
omitted). -/
def isJsSpace (c : Char) : Bool :=
  c = ' ' || c = '\t' || c = '\n' || c = '\r' || c = '\x0b' || c = '\x0c' ||
  c.toNat = 160 || c.toNat = 65279

def isAsciiAlpha (c : Char) : Bool :=
  ('a' ≤ c && c ≤ 'z') || ('A' ≤ c && c ≤ 'Z')

/-- character class `[a-z-]` under the `i` flag. -/
def isPropChar (c : Char) : Bool :=
  isAsciiAlpha c || c = '-'

/-- character class `[a-z0-9-]` under the `i` flag. -/
def isTagChar (c : Char) : Bool :=
  isAsciiAlpha c || c.isDigit || c = '-'

/-- ASCII lowercasing, the fragment of JS `toLowerCase()` exercised here. -/
def lowerC (c : Char) : Char :=
  Char.toLower c

def lowerS (s : String) : String :=
  String.mk (s.toList.map lowerC)

def strStarts (s pre : String) : Bool :=
  List.isPrefixOf pre.toList s.toList

def strEnds (s suf : String) : Bool :=
  List.isSuffixOf suf.toList s.toList

def strDropN (s : String) (n : Nat) : String :=
  String.mk (s.toList.drop n)

def strDropLastN (s : String) (n : Nat) : String :=
  String.mk (s.toList.take (s.toList.length - n))

def strLen (s : String) : Nat :=
  s.toList.length

/-- JS `String.prototype.trim` (on the whitespace actually occurring here). -/
def trimS (s : String) : String :=
  String.mk (((s.toList.dropWhile isJsSpace).reverse.dropWhile isJsSpace).reverse)

/-- JS `String.prototype.split(',')`. -/
def splitCommaAux : List Char → List Char → List String
  | [], acc => [String.mk acc.reverse]
  | ',' :: rest, acc => String.mk acc.reverse :: splitCommaAux rest []
  | c :: rest, acc => splitCommaAux rest (c :: acc)

def splitComma (s : String) : List String :=
  splitCommaAux s.toList []

/-- first index at which `pat` occurs in the list, if any. -/
def findSub (pat : List Char) : List Char → Option Nat
  | [] => if List.isPrefixOf pat [] then some 0 else none
  | c :: cs =>
    if List.isPrefixOf pat (c :: cs) then some 0
    else (findSub pat cs).map (· + 1)

/-- case-insensitive occurrence search (both sides ASCII-lowercased). -/
def findSubCI (pat : String) (l : List Char) : Option Nat :=
  findSub (pat.toList.map lowerC) (l.map lowerC)

/-- JS `String.prototype.includes`. -/
def containsSubStr (s sub : String) : Bool :=
  (findSub sub.toList s.toList).isSome

/-- case-insensitive literal at the head of the input. -/
def ciPre : List Char → List Char → Bool
  | [], _ => true
  | _ :: _, [] => false
  | p :: ps, c :: cs => lowerC p = lowerC c && ciPre ps cs

/-- drop a case-sensitive literal from the head of the input. -/
def dropPre : List Char → List Char → Option (List Char)
  | [], s => some s
  | _ :: _, [] => none
  | p :: ps, c :: cs => if p = c then dropPre ps cs else none

/-- Generic embedding of a global `RegExp.exec` loop.  `tryM s` attempts a
match at the start of `s` and returns the capture together with
(length of whole match - 1); the scan resumes right after the match.  Fuel is
the input length: every step consumes at least one character, so with
`fuel = length` the fuel never runs out. -/
def scanAux (tryM : List Char → Option (List Char × Nat)) : Nat → List Char → List (List Char)
  | 0, _ => []
  | _, [] => []
  | fuel + 1, c :: cs =>
    match tryM (c :: cs) with
    | some (cap, adv) => cap :: scanAux tryM fuel (List.drop adv cs)
    | none => scanAux tryM fuel cs

def scan (tryM : List Char → Option (List Char × Nat)) (l : List Char) : List (List Char) :=
  scanAux tryM l.length l

/-! ## Embedded regex matchers (one per regex literal of the source) -/

/-- matcher for `/<style[^>]*>([\s\S]*?)<\/style>/gi` at one position.
`[^>]*` is greedy but its class excludes `>`, and `*?` is lazy, so: maximal
run of non-`>`, a `>`, then everything up to the first `</style>`. -/
def tryStyleTag (s : List Char) : Option (List Char × Nat) :=
  if ciPre ("<style").toList s then
    let rest1 := s.drop 6
    let attrs := rest1.takeWhile (fun c => c ≠ '>')
    match rest1.drop attrs.length with
    | '>' :: body =>
      match findSubCI ("</style>") body with
      | some i => some (body.take i, 6 + attrs.length + 1 + i + 8 - 1)
      | none => none
    | _ => none
  else none

/-- matcher for `/style\s*=\s*["']([^"']+)["']/gi` at one position.  The
closing quote need not match the opening one (faithful to the regex). -/
def tryInlineStyle (s : List Char) : Option (List Char × Nat) :=
  if ciPre ("style").toList s then
    let r1 := s.drop 5
    let w1 := r1.takeWhile isJsSpace
    match r1.drop w1.length with
    | '=' :: r3 =>
      let w2 := r3.takeWhile isJsSpace
      match r3.drop w2.length with
      | q :: r5 =>
        if q = '"' || q = '\'' then
          let content := r5.takeWhile (fun c => c ≠ '"' && c ≠ '\'')
          if content.isEmpty then none
          else
            match r5.drop content.length with
            | _ :: _ => some (content, 5 + w1.length + 1 + w2.length + 1 + content.length + 1 - 1)
            | [] => none
        else none
      | [] => none
    | _ => none
  else none

/-- matcher for `/([a-z-]+)\s*:/gi` at one position: maximal nonempty
`[a-z-]` run, optional whitespace, then `:`. -/
def tryPropMatch (s : List Char) : Option (List Char × Nat) :=
  let run := s.takeWhile isPropChar
  if run.isEmpty then none
  else
    let r1 := s.drop run.length
    let w := r1.takeWhile isJsSpace
    match r1.drop w.length with
    | ':' :: _ => some (run, run.length + w.length + 1 - 1)
    | _ => none

/-- matcher for `/@([a-z-]+)/gi` at one position. -/
def tryAtMatch : List Char → Option (List Char × Nat)
  | '@' :: rest =>
    let run := rest.takeWhile isPropChar
    if run.isEmpty then none else some (run, 1 + run.length - 1)
  | _ => none

/-- matcher for `/\(\s*([a-z-]+)\s*(?::|,|\))/gi` at one position. -/
def tryMediaFeat : List Char → Option (List Char × Nat)
  | '(' :: r1 =>
    let w1 := r1.takeWhile isJsSpace
    let r2 := r1.drop w1.length
    let run := r2.takeWhile isPropChar
    if run.isEmpty then none
    else
      let r3 := r2.drop run.length
      let w2 := r3.takeWhile isJsSpace
      match r3.drop w2.length with
      | d :: _ =>
        if d = ':' || d = ',' || d = ')' then
          some (run, 1 + w1.length + run.length + w2.length + 1 - 1)
        else none
      | [] => none
  | _ => none

/-- matcher for `/<([a-z][a-z0-9-]*)/gi` at one position. -/
def tryTag : List Char → Option (List Char × Nat)
  | '<' :: c :: rest =>
    if isAsciiAlpha c then
      let run := rest.takeWhile isTagChar
      some (c :: run, 2 + run.length - 1)
    else none
  | _ => none

/-- matcher for `/\s([a-z][a-z0-9-]*)\s*=/gi` at one position. -/
def tryAttr : List Char → Option (List Char × Nat)
  | w :: c :: rest =>
    if isJsSpace w && isAsciiAlpha c then
      let run := rest.takeWhile isTagChar
      let r1 := rest.drop run.length
      let w2 := r1.takeWhile isJsSpace
      match r1.drop w2.length with
      | '=' :: _ => some (c :: run, 2 + run.length + w2.length + 1 - 1)
      | _ => none
    else none
  | _ => none

def scanStyleTags (html : String) : List String :=
  (scan tryStyleTag html.toList).map String.mk

def scanInlineStyles (html : String) : List String :=
  (scan tryInlineStyle html.toList).map String.mk

def scanSimpleProps (css : String) : List String :=
  (scan tryPropMatch css.toList).map String.mk

def scanSimpleAtRules (css : String) : List String :=
  (scan tryAtMatch css.toList).map String.mk

def scanMediaFeatures (params : String) : List String :=
  (scan tryMediaFeat params.toList).map String.mk

def scanTags (html : String) : List String :=
  (scan tryTag html.toList).map String.mk

def scanAttrs (html : String) : List String :=
  (scan tryAttr html.toList).map String.mk

/-- `css.replace(/\/\*[\s\S]*?\*\//g, '')`: drop every terminated comment; a
`/*` with no later `*/` is left in place (the regex needs the terminator).
Fuel as in `scanAux`. -/
def stripCommentsAux : Nat → List Char → List Char
  | 0, l => l
  | _, [] => []
  | fuel + 1, '/' :: '*' :: rest =>
    match findSub (['*', '/']) rest with
    | some i => stripCommentsAux fuel (rest.drop (i + 2))
    | none => '/' :: '*' :: rest
  | fuel + 1, c :: cs => c :: stripCommentsAux fuel cs

def stripComments (css : String) : String :=
  String.mk (stripCommentsAux css.toList.length css.toList)

/-! ## JS collections -/

/-- insertion-ordered JS `Set<string>.add`. -/
def setAdd (s : List String) (x : String) : List String :=
  if x ∈ s then s else s ++ [x]

/-- JS `Map.set`: replace in place if the key exists, else append. -/
def mapSet {α : Type} (m : List (String × α)) (k : String) (v : α) : List (String × α) :=
  match m with
  | [] => [(k, v)]
  | (k', v') :: rest => if k' = k then (k, v) :: rest else (k', v') :: mapSet rest k v

/-- JS `Map.get` / object indexing (association-list lookup). -/
def mapGet {α : Type} (m : List (String × α)) (k : String) : Option α :=
  match m with
  | [] => none
  | (k', v') :: rest => if k' = k then some v' else mapGet rest k

def mapHas {α : Type} (m : List (String × α)) (k : String) : Bool :=
  (mapGet m k).isSome

/-- the `values` map of the extractor: `Map<string, Set<string>>`;
`if (!values.has(prop)) values.set(prop, new Set()); values.get(prop)!.add(value)`. -/
def valuesAdd (values : List (String × List String)) (prop value : String) :
    List (String × List String) :=
  match mapGet values prop with
  | none => values ++ [(prop, setAdd [] value)]
  | some s => mapSet values prop (setAdd s value)

def valuesGetD (values : List (String × List String)) (k : String) : List String :=
  match mapGet values k with
  | none => []
  | some s => s

/-! ## caniemail.ts: data model -/

/-- `enum SupportLevels { YES = 'y', PARTIAL = 'a', NO = 'n', UNKNOWN = 'u' }`,
named here by the wire codes. -/
inductive SupportLevels where
  | y
  | a
  | n
  | u
deriving DecidableEq, Repr

inductive Category where
  | css
  | html
  | image
  | others
deriving DecidableEq, Repr

/-- `CanIEmailFeature`; only the fields read by the verified functions are
carried (`description`, `url`, dates, tags, ... are never consulted).
`stats` is family → platform → version → raw code, as nested association
lists in object insertion order; `notesByNum` likewise. -/
structure CanIEmailFeature where
  category : Category
  keywords : Option String
  notesByNum : Option (List (String × String))
  slug : String
  stats : List (String × List (String × List (String × String)))
  title : String
deriving DecidableEq, Repr

inductive FeatureType where
  | css
  | cssAtRule
  | htmlElement
  | htmlAttribute
deriving DecidableEq, Repr

inductive Severity where
  | error
  | warning
  | success
deriving DecidableEq, Repr

structure MajorClient where
  family : String
  label : String
  platform : String
deriving DecidableEq, Repr

def MAJOR_CLIENTS : List MajorClient :=
  [⟨"gmail", "Gmail", "desktop-webmail"⟩,
   ⟨"outlook", "Outlook Windows", "windows"⟩,
   ⟨"outlook", "Outlook Mac", "macos"⟩,
   ⟨"outlook", "Outlook.com", "outlook-com"⟩,
   ⟨"apple-mail", "Apple Mail", "macos"⟩,
   ⟨"apple-mail", "iOS Mail", "ios"⟩,
   ⟨"yahoo", "Yahoo", "desktop-webmail"⟩,
   ⟨"samsung-email", "Samsung Email", "android"⟩]

/-- the summary record; the source field `partial` is called `partialList`
here because `partial` is a Lean keyword. -/
structure SupportSummary where
  partialList : List MajorClient
  supported : List MajorClient
  unknown : List MajorClient
  unsupported : List MajorClient
deriving DecidableEq, Repr

structure SupportResult where
  level : SupportLevels
  note : Option String
  version : String
deriving DecidableEq, Repr

structure CompatibilityIssue where
  feature : CanIEmailFeature
  featureType : FeatureType
  property : String
  severity : Severity
  summary : SupportSummary
deriving DecidableEq, Repr

/-! ## caniemail.ts: support resolver -/

def levelOfChar : Char → Option SupportLevels
  | 'y' => some SupportLevels.y
  | 'a' => some SupportLevels.a
  | 'n' => some SupportLevels.n
  | 'u' => some SupportLevels.u
  | _ => none

/-- `rawValue.match(/^([ynau])\s*(?:#(\d+))?$/)`: one level letter, optional
whitespace, then either the end or `#` followed by digits up to the end.
Returns the level and the optional footnote number. -/
def parseSupportValue (raw : String) : Option (SupportLevels × Option String) :=
  match raw.toList with
  | [] => none
  | c :: rest =>
    match levelOfChar c with
    | none => none
    | some lvl =>
      match rest.dropWhile isJsSpace with
      | [] => some (lvl, none)
      | '#' :: ds =>
        if ds ≠ [] ∧ ds.all Char.isDigit then some (lvl, some (String.mk ds)) else none
      | _ => none

/-- `getSupportLevel`.  `Object.keys(platformStats).at(-1)` followed by
indexing with that key reads the last entry (object keys are unique); the
`if (!latestVersion)` falsiness test also rejects the empty-string key. -/
def getSupportLevel (feature : CanIEmailFeature) (family platform : String) :
    Option SupportResult :=
  match mapGet feature.stats family with
  | none => none
  | some familyStats =>
    match mapGet familyStats platform with
    | none => none
    | some platformStats =>
      match platformStats.getLast? with
      | none => none
      | some (latestVersion, rawValue) =>
        if latestVersion = "" then none
        else
          match parseSupportValue rawValue with
          | none => some ⟨SupportLevels.u, none, latestVersion⟩
          | some (level, noteNum) =>
            let note :=
              match noteNum with
              | some numStr => feature.notesByNum.bind (fun nb => mapGet nb numStr)
              | none => none
            some ⟨level, note, latestVersion⟩

/-! ## caniemail.ts: support summary -/

/-- one iteration of the `for (const client of MAJOR_CLIENTS)` loop of
`getFeatureSupportSummary`. -/
def summaryStep (feature : CanIEmailFeature) (result : SupportSummary)
    (client : MajorClient) : SupportSummary :=
  match getSupportLevel feature client.family client.platform with
  | none => { result with unknown := result.unknown ++ [client] }
  | some support =>
    if support.level = SupportLevels.u then
      { result with unknown := result.unknown ++ [client] }
    else if support.level = SupportLevels.y then
      { result with supported := result.supported ++ [client] }
    else if support.level = SupportLevels.a then
      { result with partialList := result.partialList ++ [client] }
    else
      { result with unsupported := result.unsupported ++ [client] }

def getFeatureSupportSummary (feature : CanIEmailFeature) : SupportSummary :=
  MAJOR_CLIENTS.foldl (summaryStep feature) ⟨[], [], [], []⟩

/-! ## caniemail.ts: classifier -/

/-- body of the `for (const item of items)` loop of `processFeatures`; the
state is (issues, processedSlugs). -/
def procStep (featureMap : List (String × CanIEmailFeature)) (featureType : FeatureType)
    (formatProperty : String → String)
    (st : List CompatibilityIssue × List String) (item : String) :
    List CompatibilityIssue × List String :=
  match mapGet featureMap item with
  | none => st
  | some feature =>
    if feature.slug ∈ st.2 then st
    else
      let summary := getFeatureSupportSummary feature
      let severity :=
        if summary.unsupported.length > 0 then Severity.error
        else if summary.partialList.length > 0 then Severity.warning
        else Severity.success
      (st.1 ++ [⟨feature, featureType, formatProperty item, severity, summary⟩],
       st.2 ++ [feature.slug])

def processFeatures (items : List String) (featureMap : List (String × CanIEmailFeature))
    (featureType : FeatureType) (formatProperty : String → String)
    (st : List CompatibilityIssue × List String) :
    List CompatibilityIssue × List String :=
  items.foldl (procStep featureMap featureType formatProperty) st

def createCompatibilityIssues
    (extractedCssProperties extractedCssAtRules extractedHtmlElements
      extractedHtmlAttributes : List String)
    (cssPropertyMap htmlElementMap htmlAttributeMap : List (String × CanIEmailFeature)) :
    List CompatibilityIssue :=
  let st0 : List CompatibilityIssue × List String := ([], [])
  let st1 := processFeatures extractedCssProperties cssPropertyMap FeatureType.css (fun item => item) st0
  let st2 := processFeatures extractedCssAtRules cssPropertyMap FeatureType.cssAtRule (fun item => item) st1
  let st3 := processFeatures extractedHtmlElements htmlElementMap FeatureType.htmlElement
    (fun el => "<" ++ el ++ ">") st2
  let st4 := processFeatures extractedHtmlAttributes htmlAttributeMap FeatureType.htmlAttribute
    (fun item => item) st3
  st4.1

/-! ## Reference index builders -/

/-- the slug with a leading `css-` stripped, i.e.
`feature.slug.replace("^css-" regex, '')`; the source's second replace
rewrites every dash to a dash and is the identity. -/
def chopCss (slug : String) : String :=
  if strStarts slug ("css-") then strDropN slug 4 else slug

/-- the slug with a leading `html-` stripped. -/
def chopHtml (slug : String) : String :=
  if strStarts slug ("html-") then strDropN slug 5 else slug

/-- the string with a trailing `-attribute` stripped. -/
def chopAttrTail (s : String) : String :=
  if strEnds s ("-attribute") then strDropLastN s 10 else s

/-- `feature.title.match(/<([a-z0-9-]+)>/i)`: first `<name>` in the title.
The class excludes `>`, so the greedy run is exact. -/
def titleTagFind : List Char → Option String
  | [] => none
  | '<' :: rest =>
    let run := rest.takeWhile isTagChar
    if run = [] then titleTagFind rest
    else
      match rest.drop run.length with
      | '>' :: _ => some (String.mk run)
      | _ => titleTagFind rest
  | _ :: rest => titleTagFind rest

def titleTagMatch (title : String) : Option String :=
  titleTagFind title.toList

/-- `feature.title.match(/^([a-z0-9-]+)\s+element/i)`: anchored name, at least
one whitespace, then the literal `element` (case-insensitively). -/
def titleElementMatch (title : String) : Option String :=
  let l := title.toList
  let run := l.takeWhile isTagChar
  if run = [] then none
  else
    let r1 := l.drop run.length
    let w := r1.takeWhile isJsSpace
    if w = [] then none
    else if ciPre ("element").toList (r1.drop w.length) then some (String.mk run)
    else none

/-- one-position matcher for `/([a-z-]+)\s+attribute/i`. -/
def titleAttrAt (s : List Char) : Option String :=
  let run := s.takeWhile isPropChar
  if run = [] then none
  else
    let r1 := s.drop run.length
    let w := r1.takeWhile isJsSpace
    if w = [] then none
    else if ciPre ("attribute").toList (r1.drop w.length) then some (String.mk run)
    else none

/-- `feature.title.match(/([a-z-]+)\s+attribute/i)`: leftmost match. -/
def titleAttrFind : List Char → Option String
  | [] => none
  | c :: cs =>
    match titleAttrAt (c :: cs) with
    | some cap => some cap
    | none => titleAttrFind cs

def titleAttrMatch (title : String) : Option String :=
  titleAttrFind title.toList

/-- `feature.keywords.split(',').map((k) => k.trim().toLowerCase())`. -/
def kwSplit (kw : String) : List String :=
  (splitComma kw).map (fun k => lowerS (trimS k))

/-- the keyword loop shared by the three builders:
`if (keyword && <extra> && !map.has(keyword)) map.set(keyword, feature)`,
with `extra` the builder-specific pre-`has` condition. -/
def kwFold (extra : String → Bool) (feature : CanIEmailFeature)
    (m : List (String × CanIEmailFeature)) (ks : List String) :
    List (String × CanIEmailFeature) :=
  ks.foldl
    (fun m keyword =>
      if keyword ≠ "" ∧ extra keyword = true ∧ mapHas m keyword = false then
        mapSet m keyword feature
      else m)
    m

/-- the whole keyword block of a builder loop body: `if (feature.keywords)`
(JS truthiness: non-null and non-empty), split, then the guarded loop. -/
def kwFoldBranch (extra : String → Bool) (feature : CanIEmailFeature)
    (m : List (String × CanIEmailFeature)) : List (String × CanIEmailFeature) :=
  match feature.keywords with
  | none => m
  | some kw => if kw = "" then m else kwFold extra feature m (kwSplit kw)

/-- body of the `for (const feature of features)` loop of
`buildCssPropertyMap`.  `if (feature.keywords)` is JS truthiness: keywords
must be non-null and non-empty. -/
def cssRegister (m : List (String × CanIEmailFeature)) (feature : CanIEmailFeature) :
    List (String × CanIEmailFeature) :=
  if feature.category ≠ Category.css then m
  else
    let propertyName := chopCss feature.slug
    let m := mapSet m propertyName feature
    let titleLower := lowerS feature.title
    let m := if titleLower ≠ propertyName then mapSet m titleLower feature else m
    kwFoldBranch (fun _ => true) feature m

def buildCssPropertyMap (features : List CanIEmailFeature) :
    List (String × CanIEmailFeature) :=
  features.foldl cssRegister []

/-- the slug with a leading `html-` stripped, lowercased. -/
def htmlElemSlugKey (feature : CanIEmailFeature) : String :=
  lowerS (chopHtml feature.slug)

/-- body of the per-feature loop of `buildHtmlElementMap`. -/
def htmlElemRegister (m : List (String × CanIEmailFeature)) (feature : CanIEmailFeature) :
    List (String × CanIEmailFeature) :=
  if feature.category ≠ Category.html then m
  else
    let slugElement := htmlElemSlugKey feature
    let m :=
      if slugElement ≠ "" ∧ containsSubStr slugElement ("attribute") = false then
        mapSet m slugElement feature
      else m
    let m :=
      match titleTagMatch feature.title with
      | some t => mapSet m (lowerS t) feature
      | none => m
    let m :=
      match titleElementMatch feature.title with
      | some e => mapSet m (lowerS e) feature
      | none => m
    kwFoldBranch (fun k => containsSubStr k (" ") = false) feature m

def buildHtmlElementMap (features : List CanIEmailFeature) :
    List (String × CanIEmailFeature) :=
  features.foldl htmlElemRegister []

/-- the slug with a leading `html-` and a trailing `-attribute` stripped. -/
def attrSlugKey (feature : CanIEmailFeature) : String :=
  chopAttrTail (chopHtml feature.slug)

/-- body of the per-feature loop of `buildHtmlAttributeMap`. -/
def htmlAttrRegister (m : List (String × CanIEmailFeature)) (feature : CanIEmailFeature) :
    List (String × CanIEmailFeature) :=
  if feature.category ≠ Category.html then m
  else
    let m :=
      match titleAttrMatch feature.title with
      | some a => mapSet m (lowerS a) feature
      | none => m
    let m :=
      if containsSubStr feature.slug ("attribute") = true then
        mapSet m (attrSlugKey feature) feature
      else m
    kwFoldBranch (fun k => containsSubStr k (" ") = false) feature m

def buildHtmlAttributeMap (features : List CanIEmailFeature) :
    List (String × CanIEmailFeature) :=
  features.foldl htmlAttrRegister []

/-! ## feature-extractor.ts -/

/-- the fragment of the PostCSS AST consumed by the extractor: declaration
nodes, style rules and at-rules (any other node kind carries no data the
extractor reads and is irrelevant to `walk`). -/
inductive CssNode where
  | decl (prop value : String)
  | rule (selector : String) (children : List CssNode)
  | atrule (name params : String) (children : List CssNode)

/- `root.walk` visits every node of the tree in document order (a parent
before its children); `walkNodes` lists the visited nodes of a node list,
`walkNode` those of one subtree. -/
mutual

def walkNode : CssNode → List CssNode
  | CssNode.decl p v => [CssNode.decl p v]
  | CssNode.rule sel ch => CssNode.rule sel ch :: walkNodes ch
  | CssNode.atrule nm ps ch => CssNode.atrule nm ps ch :: walkNodes ch

def walkNodes : List CssNode → List CssNode
  | [] => []
  | n :: rest => walkNode n ++ walkNodes rest

end

/-- `prop.replace(^-(?:webkit|moz|ms|o)- regex, '')`; the four alternatives
are mutually exclusive as string heads, so an if-chain is exact. -/
def stripVendor (prop : String) : String :=
  if strStarts prop ("-webkit-") then strDropN prop 8
  else if strStarts prop ("-moz-") then strDropN prop 5
  else if strStarts prop ("-ms-") then strDropN prop 4
  else if strStarts prop ("-o-") then strDropN prop 3
  else prop

/-- does the value contain `tok` followed by optional whitespace and `(` --
the shape of the `calc\s*\(` style patterns. -/
def hasTokenParen (tok : List Char) : List Char → Bool
  | [] => false
  | c :: cs =>
    (match dropPre tok (c :: cs) with
     | some rest =>
       match rest.dropWhile isJsSpace with
       | '(' :: _ => true
       | _ => false
     | none => false) ||
    hasTokenParen tok cs

def hasTokParenStr (tok : String) (value : String) : Bool :=
  hasTokenParen tok.toList value.toList

/-- the fixed catalogue of value-level features of `extractValueFeatures`;
the value is lowercased before the patterns run, so the `i` flags are
immaterial and plain substring tests embed them. -/
def valueFeatureCatalog : List (String × (String → Bool)) :=
  [("linear-gradient", fun v => containsSubStr v ("linear-gradient")),
   ("radial-gradient", fun v => containsSubStr v ("radial-gradient")),
   ("conic-gradient", fun v => containsSubStr v ("conic-gradient")),
   ("repeating-linear-gradient", fun v => containsSubStr v ("repeating-linear-gradient")),
   ("repeating-radial-gradient", fun v => containsSubStr v ("repeating-radial-gradient")),
   ("calc", fun v => hasTokParenStr ("calc") v),
   ("css variables", fun v => hasTokParenStr ("var") v),
   ("clamp", fun v => hasTokParenStr ("clamp") v),
   ("min", fun v => hasTokParenStr ("min") v),
   ("max", fun v => hasTokParenStr ("max") v),
   ("fit-content", fun v => containsSubStr v ("fit-content")),
   ("min-content", fun v => containsSubStr v ("min-content")),
   ("max-content", fun v => containsSubStr v ("max-content"))]

def extractValueFeatures (value : String) (properties : List String) : List String :=
  valueFeatureCatalog.foldl
    (fun props entry => if entry.2 value then setAdd props entry.1 else props)
    properties

/-- body of the declaration case of the `root.walk` callback of
`extractPropertiesFromAst`. -/
def declStep (st : List String × List (String × List String)) (p v : String) :
    List String × List (String × List String) :=
  let prop := lowerS p
  let isVendorProperty := strStarts prop ("-")
  let props :=
    if isVendorProperty then setAdd st.1 (stripVendor prop) else setAdd st.1 prop
  let value := lowerS v
  let values := valuesAdd st.2 prop value
  let props := extractValueFeatures value props
  (props, values)

def nodeStep (st : List String × List (String × List String)) (n : CssNode) :
    List String × List (String × List String) :=
  match n with
  | CssNode.decl p v => declStep st p v
  | _ => st

def extractPropertiesFromAst (st : List String × List (String × List String))
    (root : List CssNode) : List String × List (String × List String) :=
  (walkNodes root).foldl nodeStep st

def extractMediaFeatures (params : String) (atRules : List String) : List String :=
  (scanMediaFeatures params).foldl
    (fun s feature => setAdd s ("@media (" ++ lowerS feature ++ ")"))
    atRules

/-- body of the at-rule case of the `root.walk` callback of
`extractAtRulesFromAst`; `rule.params` truthiness is non-emptiness. -/
def atRuleStep (atRules : List String) (n : CssNode) : List String :=
  match n with
  | CssNode.atrule nm ps _ =>
    let ruleName := "@" ++ lowerS nm
    let atRules := setAdd atRules ruleName
    let atRules :=
      if lowerS nm = "media" ∧ ps ≠ "" then extractMediaFeatures ps atRules else atRules
    if lowerS nm = "supports" then setAdd atRules ("@supports") else atRules
  | _ => atRules

def extractAtRulesFromAst (atRules : List String) (root : List CssNode) : List String :=
  (walkNodes root).foldl atRuleStep atRules

def extractPropertiesSimple (css : String) (properties : List String) : List String :=
  (scanSimpleProps (stripComments css)).foldl
    (fun props cap =>
      let property := lowerS cap
      if strLen property > 1 ∧ strStarts property ("-") = false then
        setAdd props property
      else props)
    properties

def extractAtRulesSimple (css : String) (atRules : List String) : List String :=
  (scanSimpleAtRules css).foldl
    (fun s cap => setAdd s ("@" ++ lowerS cap))
    atRules

def extractHtmlElements (html : String) : List String :=
  (scanTags html).foldl (fun s cap => setAdd s (lowerS cap)) []

def extractHtmlAttributes (html : String) : List String :=
  (scanAttrs html).foldl (fun s cap => setAdd s (lowerS cap)) []

/-- `extractInlineStyles`, with the structural CSS parser (postcss
safe-parser, an external library) abstracted as `parse`; `parse s = none`
models a throw caught by the `try`. -/
def extractInlineStyles (parse : String → Option (List CssNode)) (html : String)
    (st : List String × List (String × List String)) :
    List String × List (String × List String) :=
  (scanInlineStyles html).foldl
    (fun st styleContent =>
      match parse ("* \x7b " ++ styleContent ++ " \x7d") with
      | some root => extractPropertiesFromAst st root
      | none => (extractPropertiesSimple styleContent st.1, st.2))
    st

def extractStyleTags (parse : String → Option (List CssNode)) (html : String)
    (st : List String × List String × List (String × List String)) :
    List String × List String × List (String × List String) :=
  (scanStyleTags html).foldl
    (fun st cssContent =>
      match parse cssContent with
      | some root =>
        let pv := extractPropertiesFromAst (st.1, st.2.2) root
        (pv.1, extractAtRulesFromAst st.2.1 root, pv.2)
      | none =>
        (extractPropertiesSimple cssContent st.1,
         extractAtRulesSimple cssContent st.2.1,
         st.2.2))
    st

structure ExtractedFeatures where
  cssAtRules : List String
  cssProperties : List String
  htmlAttributes : List String
  htmlElements : List String
deriving DecidableEq, Repr

def extractFeatures (parse : String → Option (List CssNode)) (html : String) :
    ExtractedFeatures :=
  let st1 := extractInlineStyles parse html ([], [])
  let st2 := extractStyleTags parse html (st1.1, [], st1.2)
  { cssAtRules := st2.2.1
    cssProperties := st2.1
    htmlAttributes := extractHtmlAttributes html
    htmlElements := extractHtmlElements html }

/-! ## Concrete instances used by witnesses and counterexamples -/

/-- a css feature whose keyword `shared` is claimed first (dataset order). -/
def fA : CanIEmailFeature :=
  { category := Category.css, keywords := some ("shared"), notesByNum := none,
    slug := "css-x", stats := [], title := "x" }

/-- a css feature claiming the same string `shared` later, via its slug. -/
def fB : CanIEmailFeature :=
  { category := Category.css, keywords := none, notesByNum := none,
    slug := "css-shared", stats := [], title := "shared" }

/-- a css feature with no stats at all. -/
def featureX : CanIEmailFeature :=
  { category := Category.css, keywords := none, notesByNum := none,
    slug := "s1", stats := [], title := "t" }

/-- a feature whose latest gmail value carries a footnote number missing from
`notesByNum`. -/
def fNote : CanIEmailFeature :=
  { category := Category.css, keywords := none, notesByNum := some [("1", "text")],
    slug := "css-note", stats := [("gmail", [("desktop-webmail", [("v1", "y #9")])])],
    title := "note" }

def gmailClient : MajorClient :=
  { family := "gmail", label := "Gmail", platform := "desktop-webmail" }

def htmlMalformed : String :=
  "<style>.a\x7bcolor:red;;; .b\x7b</style>"

def cssMalformed : String :=
  ".a\x7bcolor:red;;; .b\x7b"

def mediaCss : String :=
  "@media (prefers-color-scheme: dark)\x7b\x7d"

def mediaHtml : String :=
  "<style>@media (prefers-color-scheme: dark)\x7b\x7d</style>"

def mediaAst : List CssNode :=
  [CssNode.atrule ("media") ("(prefers-color-scheme: dark)") []]

/-- a parser that succeeds exactly on `mediaCss`. -/
def parseMedia : String → Option (List CssNode) :=
  fun s => if s = mediaCss then some mediaAst else none

/-- html whose only CSS sits in a `style` attribute containing at-rule text. -/
def htmlInlineOnly : String :=
  "<div style=\"@media x\">"

/-! ## Lemmas about the JS collection embeddings -/

theorem setAdd_mem {s : List String} {x y : String} :
    y ∈ setAdd s x ↔ y ∈ s ∨ y = x := by
  unfold setAdd
  by_cases h : x ∈ s
  · simp only [if_pos h]
    constructor
    · exact Or.inl
    · rintro (hy | rfl)
      · exact hy
      · exact h
  · simp only [if_neg h, List.mem_append, List.mem_singleton]

theorem setAdd_sub {s : List String} {x y : String} (h : y ∈ s) : y ∈ setAdd s x :=
  setAdd_mem.mpr (Or.inl h)

theorem setAdd_self {s : List String} {x : String} : x ∈ setAdd s x :=
  setAdd_mem.mpr (Or.inr rfl)

theorem mapGet_set_self {α : Type} (m : List (String × α)) (k : String) (v : α) :
    mapGet (mapSet m k v) k = some v := by
  induction m with
  | nil => simp [mapSet, mapGet]
  | cons hd tl ih =>
    by_cases h : hd.1 = k
    · simp [mapSet, mapGet, h]
    · simpa [mapSet, mapGet, h] using ih

theorem mapGet_set_ne {α : Type} (m : List (String × α)) (k k' : String) (v : α)
    (h : k' ≠ k) : mapGet (mapSet m k v) k' = mapGet m k' := by
  have h' : ¬ k = k' := fun e => h e.symm
  induction m with
  | nil => simp [mapSet, mapGet, h']
  | cons hd tl ih =>
    by_cases hk : hd.1 = k
    · subst hk
      simp [mapSet, mapGet, h', h]
    · by_cases hk' : hd.1 = k'
      · simp [mapSet, mapGet, hk, hk', h, h']
      · simp [mapSet, mapGet, hk, hk', ih]

theorem mapHas_set {α : Type} (m : List (String × α)) (k k' : String) (v : α)
    (h : mapHas m k' = true) : mapHas (mapSet m k v) k' = true := by
  by_cases hk : k' = k
  · subst hk
    simp [mapHas, mapGet_set_self]
  · simpa [mapHas, mapGet_set_ne m k k' v hk] using h

theorem kwFold_get_preserved (extra : String → Bool) (feature : CanIEmailFeature)
    (ks : List String) (m : List (String × CanIEmailFeature)) (k : String)
    (h : mapHas m k = true) :
    mapGet (kwFold extra feature m ks) k = mapGet m k := by
  induction ks generalizing m with
  | nil => rfl
  | cons kw rest ih =>
    unfold kwFold
    simp only [List.foldl_cons]
    by_cases hcond : kw ≠ "" ∧ extra kw = true ∧ mapHas m kw = false
    · rw [if_pos hcond]
      have hne : k ≠ kw := by
        rintro rfl
        rw [h] at hcond
        exact absurd hcond.2.2 (by simp)
      have := ih (mapSet m kw feature) (mapHas_set m kw k feature h)
      unfold kwFold at this
      rw [this, mapGet_set_ne m kw k feature hne]
    · rw [if_neg hcond]
      exact ih m h

theorem kwFold_has (extra : String → Bool) (feature : CanIEmailFeature)
    (ks : List String) (m : List (String × CanIEmailFeature)) (k : String)
    (h : mapHas m k = true) : mapHas (kwFold extra feature m ks) k = true := by
  simpa [mapHas, kwFold_get_preserved extra feature ks m k h] using h


/-! ## Builder registration lemmas (claim C1) -/

theorem kwFoldBranch_get_preserved (extra : String → Bool) (f : CanIEmailFeature)
    (m : List (String × CanIEmailFeature)) (k : String) (h : mapHas m k = true) :
    mapGet (kwFoldBranch extra f m) k = mapGet m k := by
  unfold kwFoldBranch
  cases f.keywords with
  | none => rfl
  | some kw =>
    by_cases hk0 : kw = ""
    · simp only [if_pos hk0]
    · simp only [if_neg hk0]
      exact kwFold_get_preserved extra f (kwSplit kw) m k h

theorem cssRegister_spec (m : List (String × CanIEmailFeature)) (f : CanIEmailFeature)
    (hc : f.category = Category.css) :
    mapGet (cssRegister m f) (chopCss f.slug) = some f
    ∧ mapGet (cssRegister m f) (lowerS f.title) = some f
    ∧ ∀ k, mapHas m k = true → k ≠ chopCss f.slug → k ≠ lowerS f.title →
        mapGet (cssRegister m f) k = mapGet m k := by
  set pn := chopCss f.slug with hpn
  set tl := lowerS f.title with htl
  set m2 := if tl ≠ pn then mapSet (mapSet m pn f) tl f else mapSet m pn f with hm2
  have hreg : cssRegister m f = kwFoldBranch (fun _ => true) f m2 := by
    unfold cssRegister
    rw [if_neg (by simp [hc])]
  have hpn2 : mapGet m2 pn = some f := by
    rw [hm2]
    by_cases h : tl = pn
    · rw [if_neg (by simpa using h)]
      exact mapGet_set_self m pn f
    · rw [if_pos (by simpa using h)]
      rw [mapGet_set_ne _ tl pn f (fun e => h e.symm)]
      exact mapGet_set_self m pn f
  have htl2 : mapGet m2 tl = some f := by
    rw [hm2]
    by_cases h : tl = pn
    · rw [if_neg (by simpa using h), h]
      exact mapGet_set_self m pn f
    · rw [if_pos (by simpa using h)]
      exact mapGet_set_self (mapSet m pn f) tl f
  refine ⟨?_, ?_, ?_⟩
  · rw [hreg, kwFoldBranch_get_preserved _ f m2 pn (by simp [mapHas, hpn2])]
    exact hpn2
  · rw [hreg, kwFoldBranch_get_preserved _ f m2 tl (by simp [mapHas, htl2])]
    exact htl2
  · intro k hk hk1 hk2
    have hget2 : mapGet m2 k = mapGet m k := by
      rw [hm2]
      by_cases h : tl = pn
      · rw [if_neg (by simpa using h)]
        exact mapGet_set_ne m pn k f hk1
      · rw [if_pos (by simpa using h)]
        rw [mapGet_set_ne _ tl k f hk2]
        exact mapGet_set_ne m pn k f hk1
    have hhas2 : mapHas m2 k = true := by
      show (mapGet m2 k).isSome = true
      rw [hget2]
      exact hk
    rw [hreg, kwFoldBranch_get_preserved _ f m2 k hhas2]
    exact hget2

theorem mapGet_set_same_val {α : Type} (m : List (String × α)) (k k' : String) (v : α)
    (h : mapGet m k = some v) : mapGet (mapSet m k' v) k = some v := by
  by_cases he : k = k'
  · subst he
    exact mapGet_set_self m k v
  · rw [mapGet_set_ne m k' k v he]
    exact h

theorem htmlElemRegister_spec (m : List (String × CanIEmailFeature)) (f : CanIEmailFeature)
    (hc : f.category = Category.html) :
    (htmlElemSlugKey f ≠ "" → containsSubStr (htmlElemSlugKey f) ("attribute") = false →
      mapGet (htmlElemRegister m f) (htmlElemSlugKey f) = some f)
    ∧ (∀ t, titleTagMatch f.title = some t →
        mapGet (htmlElemRegister m f) (lowerS t) = some f)
    ∧ (∀ e, titleElementMatch f.title = some e →
        mapGet (htmlElemRegister m f) (lowerS e) = some f)
    ∧ ∀ k, mapHas m k = true → k ≠ htmlElemSlugKey f →
        (∀ t, titleTagMatch f.title = some t → k ≠ lowerS t) →
        (∀ e, titleElementMatch f.title = some e → k ≠ lowerS e) →
        mapGet (htmlElemRegister m f) k = mapGet m k := by
  set se := htmlElemSlugKey f with hse
  set m1 := if se ≠ "" ∧ containsSubStr se ("attribute") = false then mapSet m se f else m
    with hm1
  set m2 := (match titleTagMatch f.title with
    | some t => mapSet m1 (lowerS t) f
    | none => m1) with hm2
  set m3 := (match titleElementMatch f.title with
    | some e => mapSet m2 (lowerS e) f
    | none => m2) with hm3
  have hreg : htmlElemRegister m f =
      kwFoldBranch (fun k => containsSubStr k (" ") = false) f m3 := by
    unfold htmlElemRegister
    rw [if_neg (by simp [hc])]
  have step23 : ∀ k, mapGet m2 k = some f → mapGet m3 k = some f := by
    intro k h
    rw [hm3]
    cases titleElementMatch f.title with
    | none => exact h
    | some e => exact mapGet_set_same_val m2 k (lowerS e) f h
  have step123 : ∀ k, mapGet m1 k = some f → mapGet m3 k = some f := by
    intro k h
    apply step23
    rw [hm2]
    cases titleTagMatch f.title with
    | none => exact h
    | some t => exact mapGet_set_same_val m1 k (lowerS t) f h
  have final : ∀ k, mapGet m3 k = some f → mapGet (htmlElemRegister m f) k = some f := by
    intro k h
    rw [hreg, kwFoldBranch_get_preserved _ f m3 k (by simp [mapHas, h])]
    exact h
  refine ⟨?_, ?_, ?_, ?_⟩
  · intro h1 h2
    apply final
    apply step123
    rw [hm1, if_pos (by exact ⟨h1, h2⟩)]
    exact mapGet_set_self m se f
  · intro t ht
    apply final
    apply step23
    rw [hm2, ht]
    exact mapGet_set_self m1 (lowerS t) f
  · intro e he
    apply final
    rw [hm3, he]
    exact mapGet_set_self m2 (lowerS e) f
  · intro k hk hk1 hk2 hk3
    have hg1 : mapGet m1 k = mapGet m k := by
      rw [hm1]
      by_cases h : se ≠ "" ∧ containsSubStr se ("attribute") = false
      · rw [if_pos h]
        exact mapGet_set_ne m se k f hk1
      · rw [if_neg h]
    have hg2 : mapGet m2 k = mapGet m k := by
      rw [hm2]
      cases htt : titleTagMatch f.title with
      | none => exact hg1
      | some t =>
        rw [mapGet_set_ne m1 (lowerS t) k f (hk2 t htt)]
        exact hg1
    have hg3 : mapGet m3 k = mapGet m k := by
      rw [hm3]
      cases hte : titleElementMatch f.title with
      | none => exact hg2
      | some e =>
        rw [mapGet_set_ne m2 (lowerS e) k f (hk3 e hte)]
        exact hg2
    have hhas3 : mapHas m3 k = true := by
      show (mapGet m3 k).isSome = true
      rw [hg3]
      exact hk
    rw [hreg, kwFoldBranch_get_preserved _ f m3 k hhas3]
    exact hg3

theorem htmlAttrRegister_spec (m : List (String × CanIEmailFeature)) (f : CanIEmailFeature)
    (hc : f.category = Category.html) :
    (∀ a, titleAttrMatch f.title = some a →
        mapGet (htmlAttrRegister m f) (lowerS a) = some f)
    ∧ (containsSubStr f.slug ("attribute") = true →
        mapGet (htmlAttrRegister m f) (attrSlugKey f) = some f)
    ∧ ∀ k, mapHas m k = true →
        (∀ a, titleAttrMatch f.title = some a → k ≠ lowerS a) →
        (containsSubStr f.slug ("attribute") = true → k ≠ attrSlugKey f) →
        mapGet (htmlAttrRegister m f) k = mapGet m k := by
  set m1 := (match titleAttrMatch f.title with
    | some a => mapSet m (lowerS a) f
    | none => m) with hm1
  set m2 := if containsSubStr f.slug ("attribute") = true then
      mapSet m1 (attrSlugKey f) f
    else m1 with hm2
  have hreg : htmlAttrRegister m f =
      kwFoldBranch (fun k => containsSubStr k (" ") = false) f m2 := by
    unfold htmlAttrRegister
    rw [if_neg (by simp [hc])]
  have step12 : ∀ k, mapGet m1 k = some f → mapGet m2 k = some f := by
    intro k h
    rw [hm2]
    by_cases hs : containsSubStr f.slug ("attribute") = true
    · rw [if_pos hs]
      exact mapGet_set_same_val m1 k (attrSlugKey f) f h
    · rw [if_neg hs]
      exact h
  have final : ∀ k, mapGet m2 k = some f → mapGet (htmlAttrRegister m f) k = some f := by
    intro k h
    rw [hreg, kwFoldBranch_get_preserved _ f m2 k (by simp [mapHas, h])]
    exact h
  refine ⟨?_, ?_, ?_⟩
  · intro a ha
    apply final
    apply step12
    rw [hm1, ha]
    exact mapGet_set_self m (lowerS a) f
  · intro hs
    apply final
    rw [hm2, if_pos hs]
    exact mapGet_set_self m1 (attrSlugKey f) f
  · intro k hk hk1 hk2
    have hg1 : mapGet m1 k = mapGet m k := by
      rw [hm1]
      cases hta : titleAttrMatch f.title with
      | none => rfl
      | some a =>
        exact mapGet_set_ne m (lowerS a) k f (hk1 a hta)
    have hg2 : mapGet m2 k = mapGet m k := by
      rw [hm2]
      by_cases hs : containsSubStr f.slug ("attribute") = true
      · rw [if_pos hs]
        rw [mapGet_set_ne m1 (attrSlugKey f) k f (hk2 hs)]
        exact hg1
      · rw [if_neg hs]
        exact hg1
    have hhas2 : mapHas m2 k = true := by
      show (mapGet m2 k).isSome = true
      rw [hg2]
      exact hk
    rw [hreg, kwFoldBranch_get_preserved _ f m2 k hhas2]
    exact hg2

/-- C1, counterexample.  In the dataset `[fA, fB]` the string `shared` is
claimed first by `fA` (via its keyword list) and later by `fB` (via its
slug); the claim says the first claimant in dataset order wins and later
registrations of a present key are no-ops, so it predicts the CSS index maps
`shared` to `fA`.  The built index maps it to `fB`: the slug-derived
registration of `fB` overwrote the existing entry. -/
theorem claim1_counterexample :
    mapGet (buildCssPropertyMap [fA, fB]) ("shared") = some fB ∧ fA ≠ fB := by
  constructor
  · decide
  · decide

/-- C1 (amended): in each of the three index builders only keyword-derived
registrations are first-wins no-ops for an already-present key; the
non-keyword registrations (CSS: slug-derived primary key and lowercased
title; HTML element: stripped slug, bracketed title tag and `name element`
title pattern; HTML attribute: `name attribute` title pattern and stripped
slug) unconditionally overwrite, so for those keys the LAST feature in
dataset order that claims the key via a non-keyword pattern wins.  Stated
per loop iteration: after a feature is processed, each of its non-keyword
keys maps to that feature regardless of what the map held before, while any
other already-present key keeps its previous binding (in particular every
keyword-derived registration of a present key is a no-op). -/
theorem claim1_amended :
    (∀ m f, f.category = Category.css →
      mapGet (cssRegister m f) (chopCss f.slug) = some f
      ∧ mapGet (cssRegister m f) (lowerS f.title) = some f
      ∧ ∀ k, mapHas m k = true → k ≠ chopCss f.slug → k ≠ lowerS f.title →
          mapGet (cssRegister m f) k = mapGet m k)
    ∧ (∀ m f, f.category = Category.html →
        (htmlElemSlugKey f ≠ "" → containsSubStr (htmlElemSlugKey f) ("attribute") = false →
          mapGet (htmlElemRegister m f) (htmlElemSlugKey f) = some f)
        ∧ (∀ t, titleTagMatch f.title = some t →
            mapGet (htmlElemRegister m f) (lowerS t) = some f)
        ∧ (∀ e, titleElementMatch f.title = some e →
            mapGet (htmlElemRegister m f) (lowerS e) = some f)
        ∧ ∀ k, mapHas m k = true → k ≠ htmlElemSlugKey f →
            (∀ t, titleTagMatch f.title = some t → k ≠ lowerS t) →
            (∀ e, titleElementMatch f.title = some e → k ≠ lowerS e) →
            mapGet (htmlElemRegister m f) k = mapGet m k)
    ∧ (∀ m f, f.category = Category.html →
        (∀ a, titleAttrMatch f.title = some a →
            mapGet (htmlAttrRegister m f) (lowerS a) = some f)
        ∧ (containsSubStr f.slug ("attribute") = true →
            mapGet (htmlAttrRegister m f) (attrSlugKey f) = some f)
        ∧ ∀ k, mapHas m k = true →
            (∀ a, titleAttrMatch f.title = some a → k ≠ lowerS a) →
            (containsSubStr f.slug ("attribute") = true → k ≠ attrSlugKey f) →
            mapGet (htmlAttrRegister m f) k = mapGet m k) :=
  ⟨fun m f hc => cssRegister_spec m f hc,
   fun m f hc => htmlElemRegister_spec m f hc,
   fun m f hc => htmlAttrRegister_spec m f hc⟩

/-- C1, witness for the amended theorem: processing `fB` over a map that
already binds `shared` (to `fA`) and `z` (to `fA`) rebinds `shared` to `fB`
(slug-derived key overwrites) and leaves `z` untouched. -/
theorem claim1_witness :
    fB.category = Category.css
    ∧ mapGet (cssRegister [("shared", fA), ("z", fA)] fB) (chopCss fB.slug) = some fB
    ∧ mapGet (cssRegister [("shared", fA), ("z", fA)] fB) ("z")
        = mapGet [("shared", fA), ("z", fA)] ("z") := by
  refine ⟨by decide, (claim1_amended.1 [("shared", fA), ("z", fA)] fB (by decide)).1, ?_⟩
  exact (claim1_amended.1 [("shared", fA), ("z", fA)] fB (by decide)).2.2 ("z")
    (by decide) (by decide) (by decide)

/-! ## Classifier dedup invariant (claim C2) -/

theorem procStep_good (fm : List (String × CanIEmailFeature)) (ft : FeatureType)
    (fp : String → String) (st : List CompatibilityIssue × List String) (item : String)
    (h1 : ∀ i ∈ st.1, i.feature.slug ∈ st.2)
    (h2 : List.Pairwise (fun i j => i.feature.slug ≠ j.feature.slug) st.1) :
    (∀ i ∈ (procStep fm ft fp st item).1, i.feature.slug ∈ (procStep fm ft fp st item).2)
    ∧ List.Pairwise (fun i j => i.feature.slug ≠ j.feature.slug)
        (procStep fm ft fp st item).1 := by
  unfold procStep
  cases hget : mapGet fm item with
  | none => exact ⟨h1, h2⟩
  | some feature =>
    by_cases hmem : feature.slug ∈ st.2
    · simp only [if_pos hmem]
      exact ⟨h1, h2⟩
    · simp only [if_neg hmem]
      constructor
      · intro i hi
        rcases List.mem_append.mp hi with hold | hnew
        · exact List.mem_append.mpr (Or.inl (h1 i hold))
        · simp only [List.mem_singleton] at hnew
          subst hnew
          exact List.mem_append.mpr (Or.inr (by simp))
      · rw [List.pairwise_append]
        refine ⟨h2, List.pairwise_singleton _ _, ?_⟩
        intro a ha b hb
        simp only [List.mem_singleton] at hb
        subst hb
        intro hslug
        exact hmem (hslug ▸ h1 a ha)

theorem processFeatures_good (items : List String) (fm : List (String × CanIEmailFeature))
    (ft : FeatureType) (fp : String → String) (st : List CompatibilityIssue × List String)
    (h1 : ∀ i ∈ st.1, i.feature.slug ∈ st.2)
    (h2 : List.Pairwise (fun i j => i.feature.slug ≠ j.feature.slug) st.1) :
    (∀ i ∈ (processFeatures items fm ft fp st).1,
        i.feature.slug ∈ (processFeatures items fm ft fp st).2)
    ∧ List.Pairwise (fun i j => i.feature.slug ≠ j.feature.slug)
        (processFeatures items fm ft fp st).1 := by
  induction items generalizing st with
  | nil => exact ⟨h1, h2⟩
  | cons item rest ih =>
    have hstep := procStep_good fm ft fp st item h1 h2
    exact ih (procStep fm ft fp st item) hstep.1 hstep.2

/-- C2: the classifier output never contains two issues with the same feature
slug, for every combination of identifier sets and reference mappings
(deduplication is global across the four category passes); and in the
concrete cross-category situation where a CSS property and an HTML element
both resolve to the same feature, only the CSS-category issue (the
first-processed category) is emitted. -/
theorem claim2_dedup :
    (∀ (a b c d : List String) (m1 m2 m3 : List (String × CanIEmailFeature)),
      List.Pairwise (fun i j => i.feature.slug ≠ j.feature.slug)
        (createCompatibilityIssues a b c d m1 m2 m3))
    ∧ (createCompatibilityIssues (["p1"]) [] (["el1"]) []
        [("p1", featureX)] [("el1", featureX)] []).map
        (fun i => (i.featureType, i.property, i.feature.slug))
      = [(FeatureType.css, "p1", "s1")] := by
  constructor
  · intro a b c d m1 m2 m3
    unfold createCompatibilityIssues
    have g0 : ∀ i ∈ (([], []) : List CompatibilityIssue × List String).1,
        i.feature.slug ∈ (([], []) : List CompatibilityIssue × List String).2 := by
      intro i hi
      exact absurd hi (List.not_mem_nil i)
    have g1 := processFeatures_good a m1 FeatureType.css (fun item => item) ([], [])
      g0 (List.Pairwise.nil)
    have g2 := processFeatures_good b m1 FeatureType.cssAtRule (fun item => item) _
      g1.1 g1.2
    have g3 := processFeatures_good c m2 FeatureType.htmlElement
      (fun el => "<" ++ el ++ ">") _ g2.1 g2.2
    have g4 := processFeatures_good d m3 FeatureType.htmlAttribute (fun item => item) _
      g3.1 g3.2
    exact g4.2
  · decide

/-! ## Severity precedence (claim C3) -/

theorem procStep_sev (fm : List (String × CanIEmailFeature)) (ft : FeatureType)
    (fp : String → String) (st : List CompatibilityIssue × List String) (item : String)
    (h : ∀ i ∈ st.1,
      (i.severity = Severity.error ↔ i.summary.unsupported ≠ [])
      ∧ (i.summary.unsupported = [] →
          (i.severity = Severity.warning ↔ i.summary.partialList ≠ []))
      ∧ (i.summary.unsupported = [] → i.summary.partialList = [] →
          i.severity = Severity.success)) :
    ∀ i ∈ (procStep fm ft fp st item).1,
      (i.severity = Severity.error ↔ i.summary.unsupported ≠ [])
      ∧ (i.summary.unsupported = [] →
          (i.severity = Severity.warning ↔ i.summary.partialList ≠ []))
      ∧ (i.summary.unsupported = [] → i.summary.partialList = [] →
          i.severity = Severity.success) := by
  unfold procStep
  cases hget : mapGet fm item with
  | none => exact h
  | some feature =>
    by_cases hmem : feature.slug ∈ st.2
    · simp only [if_pos hmem]
      exact h
    · simp only [if_neg hmem]
      intro i hi
      rcases List.mem_append.mp hi with hold | hnew
      · exact h i hold
      · simp only [List.mem_singleton] at hnew
        subst hnew
        set s := getFeatureSupportSummary feature with hs
        simp only
        by_cases hu : s.unsupported.length > 0
        · have hu' : s.unsupported ≠ [] := by
            intro he
            rw [he] at hu
            exact absurd hu (by simp)
          rw [if_pos hu]
          refine ⟨by simp [hu'], fun he => absurd he hu', fun he => absurd he hu'⟩
        · have hu' : s.unsupported = [] :=
            List.length_eq_zero.mp (Nat.eq_zero_of_not_pos hu)
          rw [if_neg hu]
          by_cases hp : s.partialList.length > 0
          · have hp' : s.partialList ≠ [] := by
              intro he
              rw [he] at hp
              exact absurd hp (by simp)
            rw [if_pos hp]
            exact ⟨by simp [hu'], fun _ => by simp [hp'], fun _ he => absurd he hp'⟩
          · have hp' : s.partialList = [] :=
              List.length_eq_zero.mp (Nat.eq_zero_of_not_pos hp)
            rw [if_neg hp]
            exact ⟨by simp [hu'], fun _ => by simp [hp'], fun _ _ => rfl⟩

theorem processFeatures_sev (items : List String) (fm : List (String × CanIEmailFeature))
    (ft : FeatureType) (fp : String → String) (st : List CompatibilityIssue × List String)
    (h : ∀ i ∈ st.1,
      (i.severity = Severity.error ↔ i.summary.unsupported ≠ [])
      ∧ (i.summary.unsupported = [] →
          (i.severity = Severity.warning ↔ i.summary.partialList ≠ []))
      ∧ (i.summary.unsupported = [] → i.summary.partialList = [] →
          i.severity = Severity.success)) :
    ∀ i ∈ (processFeatures items fm ft fp st).1,
      (i.severity = Severity.error ↔ i.summary.unsupported ≠ [])
      ∧ (i.summary.unsupported = [] →
          (i.severity = Severity.warning ↔ i.summary.partialList ≠ []))
      ∧ (i.summary.unsupported = [] → i.summary.partialList = [] →
          i.severity = Severity.success) := by
  induction items generalizing st with
  | nil => exact h
  | cons item rest ih => exact ih (procStep fm ft fp st item) (procStep_sev fm ft fp st item h)

/-- C3: for every emitted issue, severity is `error` iff the summary's
`unsupported` list is non-empty; when `unsupported` is empty, severity is
`warning` iff `partial` is non-empty; when both are empty, severity is
`success`. -/
theorem claim3_severity (a b c d : List String) (m1 m2 m3 : List (String × CanIEmailFeature))
    (i : CompatibilityIssue) (hi : i ∈ createCompatibilityIssues a b c d m1 m2 m3) :
    (i.severity = Severity.error ↔ i.summary.unsupported ≠ [])
    ∧ (i.summary.unsupported = [] →
        (i.severity = Severity.warning ↔ i.summary.partialList ≠ []))
    ∧ (i.summary.unsupported = [] → i.summary.partialList = [] →
        i.severity = Severity.success) := by
  revert hi
  unfold createCompatibilityIssues
  intro hi
  refine processFeatures_sev d m3 FeatureType.htmlAttribute (fun item => item) _ ?_ i hi
  refine processFeatures_sev c m2 FeatureType.htmlElement (fun el => "<" ++ el ++ ">") _ ?_
  refine processFeatures_sev b m1 FeatureType.cssAtRule (fun item => item) _ ?_
  refine processFeatures_sev a m1 FeatureType.css (fun item => item) _ ?_
  intro i hi
  exact absurd hi (List.not_mem_nil i)

/-- C3, witness: the single issue produced for `featureX` (no stats, so the
whole panel is unknown) satisfies the severity characterization. -/
theorem claim3_witness :
    ((⟨featureX, FeatureType.css, "p1", Severity.success,
        ⟨[], [], MAJOR_CLIENTS, []⟩⟩ : CompatibilityIssue).severity = Severity.error
      ↔ (⟨featureX, FeatureType.css, "p1", Severity.success,
        ⟨[], [], MAJOR_CLIENTS, []⟩⟩ : CompatibilityIssue).summary.unsupported ≠ [])
    ∧ ((⟨featureX, FeatureType.css, "p1", Severity.success,
        ⟨[], [], MAJOR_CLIENTS, []⟩⟩ : CompatibilityIssue).summary.unsupported = [] →
        ((⟨featureX, FeatureType.css, "p1", Severity.success,
          ⟨[], [], MAJOR_CLIENTS, []⟩⟩ : CompatibilityIssue).severity = Severity.warning
        ↔ (⟨featureX, FeatureType.css, "p1", Severity.success,
          ⟨[], [], MAJOR_CLIENTS, []⟩⟩ : CompatibilityIssue).summary.partialList ≠ []))
    ∧ ((⟨featureX, FeatureType.css, "p1", Severity.success,
        ⟨[], [], MAJOR_CLIENTS, []⟩⟩ : CompatibilityIssue).summary.unsupported = [] →
        (⟨featureX, FeatureType.css, "p1", Severity.success,
          ⟨[], [], MAJOR_CLIENTS, []⟩⟩ : CompatibilityIssue).summary.partialList = [] →
        (⟨featureX, FeatureType.css, "p1", Severity.success,
          ⟨[], [], MAJOR_CLIENTS, []⟩⟩ : CompatibilityIssue).severity = Severity.success) :=
  claim3_severity (["p1"]) [] [] [] [("p1", featureX)] [] []
    ⟨featureX, FeatureType.css, "p1", Severity.success, ⟨[], [], MAJOR_CLIENTS, []⟩⟩
    (by decide)

/-! ## Summary partition (claim C4) -/

theorem summaryStep_perm (f : CanIEmailFeature) (acc : SupportSummary) (c : MajorClient) :
    ((summaryStep f acc c).supported ++ (summaryStep f acc c).partialList ++
      (summaryStep f acc c).unsupported ++ (summaryStep f acc c).unknown).Perm
    (acc.supported ++ acc.partialList ++ acc.unsupported ++ acc.unknown ++ [c]) := by
  unfold summaryStep
  rw [List.perm_iff_count]
  intro x
  split
  · simp [List.count_append, List.count_cons]
    try omega
  · split_ifs <;> simp [List.count_append, List.count_cons] <;> try omega

theorem summary_foldl_perm (f : CanIEmailFeature) (clients : List MajorClient)
    (acc : SupportSummary) :
    ((clients.foldl (summaryStep f) acc).supported ++
      (clients.foldl (summaryStep f) acc).partialList ++
      (clients.foldl (summaryStep f) acc).unsupported ++
      (clients.foldl (summaryStep f) acc).unknown).Perm
    (acc.supported ++ acc.partialList ++ acc.unsupported ++ acc.unknown ++ clients) := by
  induction clients generalizing acc with
  | nil => simp
  | cons c rest ih =>
    simp only [List.foldl_cons]
    refine (ih (summaryStep f acc c)).trans ?_
    have hstep := (summaryStep_perm f acc c).append_right rest
    refine hstep.trans ?_
    rw [List.perm_iff_count]
    intro x
    simp [List.count_append]

/-- C4: for every reference feature, the four summary lists are a partition
of the fixed client panel: their concatenation is a permutation of
`MAJOR_CLIENTS`, and every client of the panel occurs exactly once across
the four lists. -/
theorem claim4_partition (f : CanIEmailFeature) :
    ((getFeatureSupportSummary f).supported ++ (getFeatureSupportSummary f).partialList ++
      (getFeatureSupportSummary f).unsupported ++ (getFeatureSupportSummary f).unknown).Perm
      MAJOR_CLIENTS
    ∧ ∀ c ∈ MAJOR_CLIENTS,
        List.count c
          ((getFeatureSupportSummary f).supported ++ (getFeatureSupportSummary f).partialList ++
            (getFeatureSupportSummary f).unsupported ++ (getFeatureSupportSummary f).unknown)
        = 1 := by
  have hperm : ((getFeatureSupportSummary f).supported ++
      (getFeatureSupportSummary f).partialList ++
      (getFeatureSupportSummary f).unsupported ++
      (getFeatureSupportSummary f).unknown).Perm MAJOR_CLIENTS := by
    have h := summary_foldl_perm f MAJOR_CLIENTS ⟨[], [], [], []⟩
    simpa [getFeatureSupportSummary] using h
  refine ⟨hperm, ?_⟩
  intro c hc
  rw [hperm.count_eq c]
  revert hc
  revert c
  decide

/-- C4, witness: at `featureX` the concatenated buckets are a permutation of
the panel, and the gmail client occurs exactly once across them. -/
theorem claim4_witness :
    ((getFeatureSupportSummary featureX).supported ++
      (getFeatureSupportSummary featureX).partialList ++
      (getFeatureSupportSummary featureX).unsupported ++
      (getFeatureSupportSummary featureX).unknown).Perm MAJOR_CLIENTS
    ∧ List.count gmailClient
        ((getFeatureSupportSummary featureX).supported ++
          (getFeatureSupportSummary featureX).partialList ++
          (getFeatureSupportSummary featureX).unsupported ++
          (getFeatureSupportSummary featureX).unknown) = 1 :=
  ⟨(claim4_partition featureX).1,
   (claim4_partition featureX).2 gmailClient (by decide)⟩

/-! ## Declaration extraction lemmas (claims C5, C10) -/

theorem vf_fold_sub (entries : List (String × (String → Bool))) (v : String)
    (props : List String) (x : String) (h : x ∈ props) :
    x ∈ entries.foldl (fun props entry => if entry.2 v then setAdd props entry.1 else props)
      props := by
  induction entries generalizing props with
  | nil => exact h
  | cons e rest ih =>
    simp only [List.foldl_cons]
    by_cases he : e.2 v
    · rw [if_pos he]
      exact ih (setAdd props e.1) (setAdd_sub h)
    · rw [if_neg he]
      exact ih props h

theorem vf_fold_mem (entries : List (String × (String → Bool))) (v : String)
    (props : List String) (x : String)
    (h : x ∈ entries.foldl (fun props entry => if entry.2 v then setAdd props entry.1 else props)
      props) :
    x ∈ props ∨ x ∈ entries.map Prod.fst := by
  induction entries generalizing props with
  | nil => exact Or.inl h
  | cons e rest ih =>
    simp only [List.foldl_cons] at h
    by_cases he : e.2 v
    · rw [if_pos he] at h
      rcases ih (setAdd props e.1) h with hp | ht
      · rcases setAdd_mem.mp hp with hp' | rfl
        · exact Or.inl hp'
        · exact Or.inr (by simp)
      · exact Or.inr (by simp [ht])
    · rw [if_neg he] at h
      rcases ih props h with hp | ht
      · exact Or.inl hp
      · exact Or.inr (by simp [ht])

theorem extractValueFeatures_sub (v : String) (props : List String) (x : String)
    (h : x ∈ props) : x ∈ extractValueFeatures v props :=
  vf_fold_sub valueFeatureCatalog v props x h

theorem extractValueFeatures_mem (v : String) (props : List String) (x : String)
    (h : x ∈ extractValueFeatures v props) :
    x ∈ props ∨ x ∈ valueFeatureCatalog.map Prod.fst :=
  vf_fold_mem valueFeatureCatalog v props x h

theorem mapGet_append {α : Type} (l1 l2 : List (String × α)) (k : String) :
    mapGet (l1 ++ l2) k =
      (match mapGet l1 k with
       | some v => some v
       | none => mapGet l2 k) := by
  induction l1 with
  | nil => simp [mapGet]
  | cons hd tl ih =>
    by_cases h : hd.1 = k
    · simp [mapGet, h]
    · simpa [mapGet, h] using ih

theorem valuesAdd_get_self (values : List (String × List String)) (k v : String) :
    mapGet (valuesAdd values k v) k = some (setAdd (valuesGetD values k) v) := by
  unfold valuesAdd valuesGetD
  cases hg : mapGet values k with
  | none =>
    rw [mapGet_append]
    rw [hg]
    simp [mapGet]
  | some s =>
    exact mapGet_set_self values k (setAdd s v)

theorem valuesAdd_get_ne (values : List (String × List String)) (k k' v : String)
    (h : k' ≠ k) : mapGet (valuesAdd values k v) k' = mapGet values k' := by
  unfold valuesAdd
  cases hg : mapGet values k with
  | none =>
    rw [mapGet_append]
    cases hg' : mapGet values k' with
    | none =>
      have h' : ¬ k = k' := fun e => h e.symm
      simp [mapGet, h']
    | some s => simp
  | some s =>
    exact mapGet_set_ne values k k' (setAdd s v) h

theorem strStarts_length_le (q pre : String) (h : strStarts q pre = true) :
    pre.toList.length ≤ q.toList.length :=
  (List.isPrefixOf_iff_prefix.mp h).length_le

theorem strStarts_trans (q pre2 pre1 : String) (h1 : strStarts pre2 pre1 = true)
    (h2 : strStarts q pre2 = true) : strStarts q pre1 = true :=
  List.isPrefixOf_iff_prefix.mpr
    ((List.isPrefixOf_iff_prefix.mp h1).trans (List.isPrefixOf_iff_prefix.mp h2))

theorem strDropN_ne (q : String) (n : Nat) (hn : 0 < n) (hlen : n ≤ q.toList.length) :
    strDropN q n ≠ q := by
  intro he
  have hl : (strDropN q n).toList.length = q.toList.length := by rw [he]
  have : q.toList.length - n = q.toList.length := by
    simpa [strDropN] using hl
  omega

theorem stripVendor_ne (q : String)
    (hv : strStarts q ("-webkit-") = true ∨ strStarts q ("-moz-") = true ∨
      strStarts q ("-ms-") = true ∨ strStarts q ("-o-") = true) :
    stripVendor q ≠ q := by
  unfold stripVendor
  split_ifs with hw hm hs ho
  · exact strDropN_ne q 8 (by omega) (strStarts_length_le q ("-webkit-") hw)
  · exact strDropN_ne q 5 (by omega) (strStarts_length_le q ("-moz-") hm)
  · exact strDropN_ne q 4 (by omega) (strStarts_length_le q ("-ms-") hs)
  · exact strDropN_ne q 3 (by omega) (strStarts_length_le q ("-o-") ho)
  · rcases hv with h | h | h | h
    · exact absurd h hw
    · exact absurd h hm
    · exact absurd h hs
    · exact absurd h ho

theorem catalogNames_no_dash :
    ∀ nm ∈ valueFeatureCatalog.map Prod.fst, strStarts nm ("-") = false := by
  decide

/-- C5, counterexample.  For the single parsed declaration
`-webkit-border-radius: 4px` the property set receives only the unprefixed
name, but the declaration's value is recorded under the PREFIXED property
name: the unprefixed property's value set stays empty, contradicting the
claim that the value lands in the unprefixed property's value set. -/
theorem claim5_counterexample :
    (extractPropertiesFromAst ([], [])
        [CssNode.decl ("-webkit-border-radius") ("4px")]).1 = ["border-radius"]
    ∧ mapGet (extractPropertiesFromAst ([], [])
        [CssNode.decl ("-webkit-border-radius") ("4px")]).2 ("border-radius") = none
    ∧ mapGet (extractPropertiesFromAst ([], [])
        [CssNode.decl ("-webkit-border-radius") ("4px")]).2 ("-webkit-border-radius")
      = some (["4px"]) := by
  refine ⟨by decide, by decide, by decide⟩

/-- C5 (amended): for every parsed declaration whose lowercased property name
begins with one of `-webkit-`, `-moz-`, `-ms-`, `-o-`, the property set
receives exactly the unprefixed name (plus any value-derived feature names);
the prefixed form itself is never added by this declaration; and the
declaration's lowercased value is recorded in the value set under the
ORIGINAL (still prefixed) lowercased property name, every other key of the
value map (in particular the unprefixed name) being left unchanged. -/
theorem claim5_amended (props : List String) (values : List (String × List String))
    (p v : String)
    (hv : strStarts (lowerS p) ("-webkit-") = true ∨ strStarts (lowerS p) ("-moz-") = true ∨
      strStarts (lowerS p) ("-ms-") = true ∨ strStarts (lowerS p) ("-o-") = true) :
    (declStep (props, values) p v).1
      = extractValueFeatures (lowerS v) (setAdd props (stripVendor (lowerS p)))
    ∧ (lowerS p ∉ props → lowerS p ∉ (declStep (props, values) p v).1)
    ∧ mapGet (declStep (props, values) p v).2 (lowerS p)
      = some (setAdd (valuesGetD values (lowerS p)) (lowerS v))
    ∧ ∀ k, k ≠ lowerS p → mapGet (declStep (props, values) p v).2 k = mapGet values k := by
  have hdash : strStarts (lowerS p) ("-") = true := by
    rcases hv with h | h | h | h
    · exact strStarts_trans (lowerS p) ("-webkit-") ("-") (by decide) h
    · exact strStarts_trans (lowerS p) ("-moz-") ("-") (by decide) h
    · exact strStarts_trans (lowerS p) ("-ms-") ("-") (by decide) h
    · exact strStarts_trans (lowerS p) ("-o-") ("-") (by decide) h
  have hprops : (declStep (props, values) p v).1
      = extractValueFeatures (lowerS v) (setAdd props (stripVendor (lowerS p))) := by
    unfold declStep
    simp only [hdash, if_true]
  have hvals : (declStep (props, values) p v).2 = valuesAdd values (lowerS p) (lowerS v) := by
    unfold declStep
    simp only
  refine ⟨hprops, ?_, ?_, ?_⟩
  · intro hnotin hmem
    rw [hprops] at hmem
    rcases extractValueFeatures_mem _ _ _ hmem with hin | hcat
    · rcases setAdd_mem.mp hin with hin' | heq
      · exact hnotin hin'
      · exact stripVendor_ne (lowerS p) hv heq.symm
    · have := catalogNames_no_dash (lowerS p) hcat
      rw [hdash] at this
      exact absurd this (by simp)
  · rw [hvals]
    exact valuesAdd_get_self values (lowerS p) (lowerS v)
  · intro k hk
    rw [hvals]
    exact valuesAdd_get_ne values (lowerS p) k (lowerS v) hk

/-- C5, witness: the amended theorem applied to the declaration
`-webkit-border-radius: 4PX` over the empty state. -/
theorem claim5_witness :
    (declStep (([]), []) ("-webkit-border-radius") ("4PX")).1
      = extractValueFeatures (lowerS ("4PX"))
          (setAdd [] (stripVendor (lowerS ("-webkit-border-radius"))))
    ∧ lowerS ("-webkit-border-radius") ∉
        (declStep (([]), []) ("-webkit-border-radius") ("4PX")).1
    ∧ mapGet (declStep (([]), []) ("-webkit-border-radius") ("4PX")).2
        (lowerS ("-webkit-border-radius"))
      = some (setAdd (valuesGetD [] (lowerS ("-webkit-border-radius"))) (lowerS ("4PX")))
    ∧ mapGet (declStep (([]), []) ("-webkit-border-radius") ("4PX")).2 ("border-radius")
      = mapGet ([] : List (String × List String)) ("border-radius") := by
  have h := claim5_amended [] [] ("-webkit-border-radius") ("4PX") (Or.inl (by decide))
  exact ⟨h.1, h.2.1 (by simp), h.2.2.1, h.2.2.2 ("border-radius") (by decide)⟩

theorem nodeStep_props_sub (st : List String × List (String × List String)) (n : CssNode)
    (x : String) (h : x ∈ st.1) : x ∈ (nodeStep st n).1 := by
  cases n with
  | decl p v =>
    show x ∈ (declStep st p v).1
    unfold declStep
    simp only
    by_cases hv : strStarts (lowerS p) ("-") = true
    · rw [if_pos hv]
      exact extractValueFeatures_sub _ _ _ (setAdd_sub h)
    · rw [if_neg hv]
      exact extractValueFeatures_sub _ _ _ (setAdd_sub h)
  | rule sel ch => exact h
  | atrule nm ps ch => exact h

theorem nodesFold_props_sub (ns : List CssNode)
    (st : List String × List (String × List String)) (x : String) (h : x ∈ st.1) :
    x ∈ (ns.foldl nodeStep st).1 := by
  induction ns generalizing st with
  | nil => exact h
  | cons n rest ih => exact ih (nodeStep st n) (nodeStep_props_sub st n x h)

theorem stripVendor_id_of (q : String)
    (h1 : strStarts q ("-webkit-") = false) (h2 : strStarts q ("-moz-") = false)
    (h3 : strStarts q ("-ms-") = false) (h4 : strStarts q ("-o-") = false) :
    stripVendor q = q := by
  unfold stripVendor
  simp [h1, h2, h3, h4]

/-- C10: a parsed declaration whose lowercased property name begins with a
dash but with none of the four vendor prefixes (custom properties such as
`--x`, unlisted prefixes such as `-epub-foo`) contributes its lowercased
name verbatim, leading dashes included, to the property set. -/
theorem claim10_dash_verbatim (st : List String × List (String × List String))
    (root : List CssNode) (p v : String)
    (hmem : CssNode.decl p v ∈ walkNodes root)
    (hd : strStarts (lowerS p) ("-") = true)
    (h1 : strStarts (lowerS p) ("-webkit-") = false)
    (h2 : strStarts (lowerS p) ("-moz-") = false)
    (h3 : strStarts (lowerS p) ("-ms-") = false)
    (h4 : strStarts (lowerS p) ("-o-") = false) :
    lowerS p ∈ (extractPropertiesFromAst st root).1 := by
  unfold extractPropertiesFromAst
  generalize hg : walkNodes root = ns
  rw [hg] at hmem
  clear hg
  revert hmem
  induction ns generalizing st with
  | nil =>
    intro hmem
    exact absurd hmem (List.not_mem_nil _)
  | cons n rest ih =>
    intro hmem
    rcases List.mem_cons.mp hmem with heq | htail
    · subst heq
      simp only [List.foldl_cons]
      apply nodesFold_props_sub
      show lowerS p ∈ (declStep st p v).1
      unfold declStep
      simp only [hd, if_true]
      rw [stripVendor_id_of (lowerS p) h1 h2 h3 h4]
      exact extractValueFeatures_sub _ _ _ setAdd_self
    · simp only [List.foldl_cons]
      exact ih (nodeStep st n) htail

/-- C10, witness: the custom property `--x` is recorded verbatim. -/
theorem claim10_witness :
    lowerS ("--x") ∈ (extractPropertiesFromAst (([]), [])
      [CssNode.decl ("--x") ("red")]).1 :=
  claim10_dash_verbatim ([], []) [CssNode.decl ("--x") ("red")] ("--x") ("red")
    (by simp [walkNodes, walkNode]) (by decide) (by decide) (by decide) (by decide)
    (by decide)

/-! ## No-data and unparsable support codes (claim C6) -/

theorem summaryStep_unknown_mono (f : CanIEmailFeature) (acc : SupportSummary)
    (c x : MajorClient) (h : x ∈ acc.unknown) : x ∈ (summaryStep f acc c).unknown := by
  unfold summaryStep
  split
  · exact List.mem_append_left _ h
  · split_ifs
    · exact List.mem_append_left _ h
    · exact h
    · exact h
    · exact h

theorem summary_foldl_unknown_mono (f : CanIEmailFeature) (clients : List MajorClient)
    (acc : SupportSummary) (x : MajorClient) (h : x ∈ acc.unknown) :
    x ∈ (clients.foldl (summaryStep f) acc).unknown := by
  induction clients generalizing acc with
  | nil => exact h
  | cons cl rest ih => exact ih (summaryStep f acc cl) (summaryStep_unknown_mono f acc cl x h)

theorem summaryStep_unknown_self (f : CanIEmailFeature) (acc : SupportSummary)
    (c : MajorClient)
    (hcond : getSupportLevel f c.family c.platform = none ∨
      ∃ r, getSupportLevel f c.family c.platform = some r ∧ r.level = SupportLevels.u) :
    c ∈ (summaryStep f acc c).unknown := by
  unfold summaryStep
  split
  · exact List.mem_append_right _ (by simp)
  · rename_i support heq
    have hu : support.level = SupportLevels.u := by
      rcases hcond with h | ⟨r, hr, hl⟩
      · rw [h] at heq
        exact absurd heq (by simp)
      · rw [hr] at heq
        cases heq
        exact hl
    rw [if_pos hu]
    exact List.mem_append_right _ (by simp)

theorem summary_foldl_unknown_mem (f : CanIEmailFeature) (clients : List MajorClient)
    (acc : SupportSummary) (c : MajorClient) (hc : c ∈ clients)
    (hcond : getSupportLevel f c.family c.platform = none ∨
      ∃ r, getSupportLevel f c.family c.platform = some r ∧ r.level = SupportLevels.u) :
    c ∈ (clients.foldl (summaryStep f) acc).unknown := by
  induction clients generalizing acc with
  | nil => exact absurd hc (List.not_mem_nil c)
  | cons cl rest ih =>
    rcases List.mem_cons.mp hc with heq | htail
    · subst heq
      simp only [List.foldl_cons]
      exact summary_foldl_unknown_mono f rest _ c (summaryStep_unknown_self f acc c hcond)
    · simp only [List.foldl_cons]
      exact ih (summaryStep f acc cl) htail

theorem getSupportLevel_unknown_cases (f : CanIEmailFeature) (fam plat : String)
    (hcond : mapGet f.stats fam = none
      ∨ (∃ fs, mapGet f.stats fam = some fs ∧ mapGet fs plat = none)
      ∨ (∃ fs ps ver raw, mapGet f.stats fam = some fs ∧ mapGet fs plat = some ps ∧
          ps.getLast? = some (ver, raw) ∧ ver ≠ "" ∧ parseSupportValue raw = none)) :
    getSupportLevel f fam plat = none ∨
      ∃ r, getSupportLevel f fam plat = some r ∧ r.level = SupportLevels.u := by
  unfold getSupportLevel
  rcases hcond with h | ⟨fs, hfs, hps⟩ | ⟨fs, ps, ver, raw, hfs, hps, hlast, hver, hparse⟩
  · simp only [h]
    exact Or.inl trivial
  · simp only [hfs, hps]
    exact Or.inl trivial
  · simp only [hfs, hps, hlast]
    rw [if_neg hver]
    simp only [hparse]
    exact Or.inr ⟨⟨SupportLevels.u, none, ver⟩, rfl, rfl⟩

theorem getSupportLevel_note_missing (f : CanIEmailFeature) (fam plat : String)
    (fs : List (String × List (String × String))) (ps : List (String × String))
    (ver raw : String) (lvl : SupportLevels) (n : String)
    (hfs : mapGet f.stats fam = some fs) (hps : mapGet fs plat = some ps)
    (hlast : ps.getLast? = some (ver, raw)) (hver : ver ≠ "")
    (hparse : parseSupportValue raw = some (lvl, some n))
    (hnb : f.notesByNum.bind (fun nb => mapGet nb n) = none) :
    getSupportLevel f fam plat = some ⟨lvl, none, ver⟩ := by
  unfold getSupportLevel
  simp only [hfs, hps, hlast]
  rw [if_neg hver]
  simp only [hparse]
  simp [hnb]

/-- C6: a client of the panel whose family is absent from `stats`, or whose
platform is absent from the family's record, or whose latest version's raw
support value fails the pattern (one of `y n a u`, optional whitespace,
optional `#digits`), lands in the `unknown` bucket of the summary rather
than raising; and a footnote number absent from `notesByNum` yields a
result with no note rather than an error. -/
theorem claim6_error_handling :
    (∀ (f : CanIEmailFeature) (c : MajorClient), c ∈ MAJOR_CLIENTS →
      (mapGet f.stats c.family = none
        ∨ (∃ fs, mapGet f.stats c.family = some fs ∧ mapGet fs c.platform = none)
        ∨ (∃ fs ps ver raw, mapGet f.stats c.family = some fs ∧
            mapGet fs c.platform = some ps ∧
            ps.getLast? = some (ver, raw) ∧ ver ≠ "" ∧ parseSupportValue raw = none)) →
      c ∈ (getFeatureSupportSummary f).unknown)
    ∧ (∀ (f : CanIEmailFeature) (fam plat : String)
        (fs : List (String × List (String × String))) (ps : List (String × String))
        (ver raw : String) (lvl : SupportLevels) (n : String),
        mapGet f.stats fam = some fs → mapGet fs plat = some ps →
        ps.getLast? = some (ver, raw) → ver ≠ "" →
        parseSupportValue raw = some (lvl, some n) →
        f.notesByNum.bind (fun nb => mapGet nb n) = none →
        getSupportLevel f fam plat = some ⟨lvl, none, ver⟩) := by
  constructor
  · intro f c hc hcond
    unfold getFeatureSupportSummary
    exact summary_foldl_unknown_mem f MAJOR_CLIENTS ⟨[], [], [], []⟩ c hc
      (getSupportLevel_unknown_cases f c.family c.platform hcond)
  · intro f fam plat fs ps ver raw lvl n hfs hps hlast hver hparse hnb
    exact getSupportLevel_note_missing f fam plat fs ps ver raw lvl n hfs hps hlast hver
      hparse hnb

/-- C6, witness: the gmail client lands in the unknown bucket for the
stats-less `featureX`, and `fNote`'s missing footnote `#9` yields a result
with no note. -/
theorem claim6_witness :
    gmailClient ∈ (getFeatureSupportSummary featureX).unknown
    ∧ getSupportLevel fNote ("gmail") ("desktop-webmail")
      = some ⟨SupportLevels.y, none, "v1"⟩ :=
  ⟨claim6_error_handling.1 featureX gmailClient (by decide) (Or.inl (by decide)),
   claim6_error_handling.2 fNote ("gmail") ("desktop-webmail")
     [("desktop-webmail", [("v1", "y #9")])] [("v1", "y #9")] ("v1") ("y #9")
     SupportLevels.y ("9") (by decide) (by decide) (by decide) (by decide) (by decide)
     (by decide)⟩

/-! ## Fallback extraction (claim C7) -/

theorem foldl_setAdd_mono (g : String → String) (l : List String) (S : List String)
    (x : String) (h : x ∈ S) : x ∈ l.foldl (fun s c => setAdd s (g c)) S := by
  induction l generalizing S with
  | nil => exact h
  | cons c rest ih => exact ih (setAdd S (g c)) (setAdd_sub h)

theorem foldl_setAdd_adds (g : String → String) (l : List String) (S : List String)
    (cap : String) (h : cap ∈ l) : g cap ∈ l.foldl (fun s c => setAdd s (g c)) S := by
  induction l generalizing S with
  | nil => exact absurd h (List.not_mem_nil cap)
  | cons c rest ih =>
    rcases List.mem_cons.mp h with heq | htail
    · subst heq
      exact foldl_setAdd_mono g rest _ _ (setAdd_self)
    · exact ih (setAdd S (g c)) htail

theorem propsSimple_fold_mem (l : List String) (props : List String) (x : String) :
    x ∈ l.foldl
        (fun props cap =>
          let property := lowerS cap
          if strLen property > 1 ∧ strStarts property ("-") = false then
            setAdd props property
          else props)
        props
    ↔ x ∈ props ∨ (x ∈ l.map lowerS ∧ strLen x > 1 ∧ strStarts x ("-") = false) := by
  induction l generalizing props with
  | nil => simp
  | cons cap rest ih =>
    simp only [List.foldl_cons]
    by_cases hP : strLen (lowerS cap) > 1 ∧ strStarts (lowerS cap) ("-") = false
    · rw [if_pos hP]
      rw [ih (setAdd props (lowerS cap))]
      constructor
      · rintro (hm | hrest)
        · rcases setAdd_mem.mp hm with hm' | rfl
          · exact Or.inl hm'
          · exact Or.inr ⟨by simp, hP⟩
        · exact Or.inr ⟨by simp [hrest.1], hrest.2⟩
      · rintro (hm | ⟨hmap, hx⟩)
        · exact Or.inl (setAdd_sub hm)
        · rcases List.mem_cons.mp hmap with heq | htail
          · subst heq
            exact Or.inl setAdd_self
          · exact Or.inr ⟨htail, hx⟩
    · rw [if_neg hP]
      rw [ih props]
      constructor
      · rintro (hm | hrest)
        · exact Or.inl hm
        · exact Or.inr ⟨by simp [hrest.1], hrest.2⟩
      · rintro (hm | ⟨hmap, hx⟩)
        · exact Or.inl hm
        · rcases List.mem_cons.mp hmap with heq | htail
          · subst heq
            exact absurd hx hP
          · exact Or.inr ⟨htail, hx⟩

/-- C7: the fallback path.  (1) When structural parsing of a style block
fails (models the parser throwing), extraction does not fail and the lenient
fallback still recovers properties: on the spec's malformed example the
property `color` is extracted.  (2) The fallback property set is exactly the
input set plus those lowercased `name:` tokens found by the comment-stripped
scan whose name has at least 2 characters and does not start with `-`.
(3) Every `@name` token found by the fallback at-rule scan is recorded as
`@name` lowercased.  (Totality and purity hold by construction: every
embedded function is a total Lean function of its input.) -/
theorem claim7_fallback :
    (∀ parse : String → Option (List CssNode), parse cssMalformed = none →
      "color" ∈ (extractFeatures parse htmlMalformed).cssProperties)
    ∧ (∀ (css : String) (S : List String) (x : String),
        x ∈ extractPropertiesSimple css S ↔
          x ∈ S ∨ (x ∈ (scanSimpleProps (stripComments css)).map lowerS ∧
            strLen x > 1 ∧ strStarts x ("-") = false))
    ∧ (∀ (css : String) (S : List String) (cap : String),
        cap ∈ scanSimpleAtRules css →
        ("@" ++ lowerS cap) ∈ extractAtRulesSimple css S) := by
  refine ⟨?_, ?_, ?_⟩
  · intro parse hp
    have hinline : scanInlineStyles htmlMalformed = [] := by decide
    have hstyle : scanStyleTags htmlMalformed = [cssMalformed] := by decide
    have h1 : extractInlineStyles parse htmlMalformed ([], []) = ([], []) := by
      unfold extractInlineStyles
      rw [hinline]
      rfl
    show "color" ∈ (extractStyleTags parse htmlMalformed
      ((extractInlineStyles parse htmlMalformed ([], [])).1, [],
        (extractInlineStyles parse htmlMalformed ([], [])).2)).1
    rw [h1]
    unfold extractStyleTags
    rw [hstyle]
    simp only [List.foldl_cons, List.foldl_nil]
    rw [hp]
    decide
  · intro css S x
    exact propsSimple_fold_mem (scanSimpleProps (stripComments css)) S x
  · intro css S cap h
    exact foldl_setAdd_adds (fun c => "@" ++ lowerS c) (scanSimpleAtRules css) S cap h

/-- C7, witness. -/
theorem claim7_witness :
    "color" ∈ (extractFeatures (fun _ => none) htmlMalformed).cssProperties
    ∧ ("color" ∈ extractPropertiesSimple cssMalformed [] ↔
        "color" ∈ [] ∨ ("color" ∈ (scanSimpleProps (stripComments cssMalformed)).map lowerS ∧
          strLen ("color") > 1 ∧ strStarts ("color") ("-") = false))
    ∧ ("@" ++ lowerS ("media")) ∈ extractAtRulesSimple ("@media x") [] :=
  ⟨claim7_fallback.1 (fun _ => none) rfl,
   claim7_fallback.2.1 cssMalformed [] ("color"),
   claim7_fallback.2.2 ("@media x") [] ("media") (by decide)⟩

/-! ## Media feature extraction (claim C8) -/

theorem atRuleStep_mono (s : List String) (n : CssNode) (x : String) (h : x ∈ s) :
    x ∈ atRuleStep s n := by
  cases n with
  | decl p v => exact h
  | rule sel ch => exact h
  | atrule nm ps ch =>
    show x ∈ (let s1 := setAdd s ("@" ++ lowerS nm)
      let s2 := if lowerS nm = "media" ∧ ps ≠ "" then extractMediaFeatures ps s1 else s1
      if lowerS nm = "supports" then setAdd s2 ("@supports") else s2)
    simp only
    have h1 : x ∈ setAdd s ("@" ++ lowerS nm) := setAdd_sub h
    have h2 : x ∈ (if lowerS nm = "media" ∧ ps ≠ "" then
        extractMediaFeatures ps (setAdd s ("@" ++ lowerS nm))
      else setAdd s ("@" ++ lowerS nm)) := by
      by_cases hc : lowerS nm = "media" ∧ ps ≠ ""
      · rw [if_pos hc]
        unfold extractMediaFeatures
        exact foldl_setAdd_mono (fun feature => "@media (" ++ lowerS feature ++ ")")
          (scanMediaFeatures ps) _ x h1
      · rw [if_neg hc]
        exact h1
    by_cases hc2 : lowerS nm = "supports"
    · rw [if_pos hc2]
      exact setAdd_sub h2
    · rw [if_neg hc2]
      exact h2

theorem atRulesFold_mono (ns : List CssNode) (s : List String) (x : String) (h : x ∈ s) :
    x ∈ ns.foldl atRuleStep s := by
  induction ns generalizing s with
  | nil => exact h
  | cons n rest ih => exact ih (atRuleStep s n) (atRuleStep_mono s n x h)

theorem atRuleStep_media_self (s : List String) (nm ps : String) (ch : List CssNode)
    (hm : lowerS nm = "media") (hps : ps ≠ "") :
    "@media" ∈ atRuleStep s (CssNode.atrule nm ps ch)
    ∧ ∀ feat ∈ scanMediaFeatures ps,
        ("@media (" ++ lowerS feat ++ ")") ∈ atRuleStep s (CssNode.atrule nm ps ch) := by
  have hstep : atRuleStep s (CssNode.atrule nm ps ch)
      = extractMediaFeatures ps (setAdd s ("@media")) := by
    show (let s1 := setAdd s ("@" ++ lowerS nm)
      let s2 := if lowerS nm = "media" ∧ ps ≠ "" then extractMediaFeatures ps s1 else s1
      if lowerS nm = "supports" then setAdd s2 ("@supports") else s2)
      = extractMediaFeatures ps (setAdd s ("@media"))
    simp only
    rw [hm]
    rw [if_pos (And.intro rfl hps)]
    rw [if_neg (show ¬ ("media" : String) = "supports" by decide)]
    have happ : ("@" ++ "media" : String) = "@media" := by decide
    rw [happ]
  constructor
  · rw [hstep]
    unfold extractMediaFeatures
    exact foldl_setAdd_mono (fun feature => "@media (" ++ lowerS feature ++ ")")
      (scanMediaFeatures ps) _ _ setAdd_self
  · intro feat hfeat
    rw [hstep]
    unfold extractMediaFeatures
    exact foldl_setAdd_adds (fun feature => "@media (" ++ lowerS feature ++ ")")
      (scanMediaFeatures ps) _ feat hfeat

theorem extractAtRulesFromAst_media (S : List String) (root : List CssNode)
    (nm ps : String) (ch : List CssNode)
    (hmem : CssNode.atrule nm ps ch ∈ walkNodes root)
    (hm : lowerS nm = "media") (hps : ps ≠ "") :
    "@media" ∈ extractAtRulesFromAst S root
    ∧ ∀ feat ∈ scanMediaFeatures ps,
        ("@media (" ++ lowerS feat ++ ")") ∈ extractAtRulesFromAst S root := by
  unfold extractAtRulesFromAst
  generalize hg : walkNodes root = ns
  rw [hg] at hmem
  clear hg
  revert hmem
  induction ns generalizing S with
  | nil =>
    intro hmem
    exact absurd hmem (List.not_mem_nil _)
  | cons n rest ih =>
    intro hmem
    rcases List.mem_cons.mp hmem with heq | htail
    · subst heq
      simp only [List.foldl_cons]
      constructor
      · exact atRulesFold_mono rest _ _
          (atRuleStep_media_self S nm ps ch hm hps).1
      · intro feat hfeat
        exact atRulesFold_mono rest _ _
          ((atRuleStep_media_self S nm ps ch hm hps).2 feat hfeat)
    · simp only [List.foldl_cons]
      exact ih (atRuleStep S n) htail

/-- C8: for every successfully parsed `@media` at-rule with a non-empty
parameter string, extraction records `@media` in the at-rule set and
`@media (feature)` for every parenthesized feature token its parameter scan
finds; in particular, on the HTML
`<style>@media (prefers-color-scheme: dark){}</style>` (with the structural
parser returning the corresponding at-rule node) the at-rule set contains
both `@media` and `@media (prefers-color-scheme)`. -/
theorem claim8_media :
    (∀ (S : List String) (root : List CssNode) (nm ps : String) (ch : List CssNode),
      CssNode.atrule nm ps ch ∈ walkNodes root → lowerS nm = "media" → ps ≠ "" →
      "@media" ∈ extractAtRulesFromAst S root
      ∧ ∀ feat ∈ scanMediaFeatures ps,
          ("@media (" ++ lowerS feat ++ ")") ∈ extractAtRulesFromAst S root)
    ∧ (∀ parse : String → Option (List CssNode), parse mediaCss = some mediaAst →
        "@media" ∈ (extractFeatures parse mediaHtml).cssAtRules
        ∧ "@media (prefers-color-scheme)" ∈ (extractFeatures parse mediaHtml).cssAtRules) := by
  constructor
  · intro S root nm ps ch hmem hm hps
    exact extractAtRulesFromAst_media S root nm ps ch hmem hm hps
  · intro parse hparse
    have hinline : scanInlineStyles mediaHtml = [] := by decide
    have hstyle : scanStyleTags mediaHtml = [mediaCss] := by decide
    have h1 : extractInlineStyles parse mediaHtml ([], []) = ([], []) := by
      unfold extractInlineStyles
      rw [hinline]
      rfl
    have hshow : (extractFeatures parse mediaHtml).cssAtRules
        = (extractStyleTags parse mediaHtml
            ((extractInlineStyles parse mediaHtml ([], [])).1, [],
              (extractInlineStyles parse mediaHtml ([], [])).2)).2.1 := rfl
    rw [hshow, h1]
    unfold extractStyleTags
    rw [hstyle]
    simp only [List.foldl_cons, List.foldl_nil]
    rw [hparse]
    constructor
    · decide
    · decide

/-- C8, witness. -/
theorem claim8_witness :
    ("@media" ∈ extractAtRulesFromAst [] mediaAst
      ∧ ∀ feat ∈ scanMediaFeatures ("(prefers-color-scheme: dark)"),
          ("@media (" ++ lowerS feat ++ ")") ∈ extractAtRulesFromAst [] mediaAst)
    ∧ ("@media" ∈ (extractFeatures parseMedia mediaHtml).cssAtRules
      ∧ "@media (prefers-color-scheme)" ∈ (extractFeatures parseMedia mediaHtml).cssAtRules) :=
  ⟨claim8_media.1 [] mediaAst ("media") ("(prefers-color-scheme: dark)") []
      (by simp [walkNodes, walkNode, mediaAst]) (by decide) (by decide),
   claim8_media.2 parseMedia (by rw [parseMedia, if_pos rfl])⟩

/-! ## At-rules come only from style blocks (claim C9) -/

/-- C9: the at-rule set is populated exclusively by the `<style>` block pass;
inline `style="..."` attributes never contribute at-rules.  For every input
whose style-tag scan finds no block — in particular any input whose only CSS
sits in `style` attributes — the returned `cssAtRules` set is empty, whatever
the attribute text contains and whatever the parser does. -/
theorem claim9_atrules_from_style_tags (parse : String → Option (List CssNode))
    (html : String) (h : scanStyleTags html = []) :
    (extractFeatures parse html).cssAtRules = [] := by
  have hshow : (extractFeatures parse html).cssAtRules
      = (extractStyleTags parse html
          ((extractInlineStyles parse html ([], [])).1, [],
            (extractInlineStyles parse html ([], [])).2)).2.1 := rfl
  rw [hshow]
  unfold extractStyleTags
  rw [h]
  rfl

/-- C9, witness: html whose only CSS is the inline attribute
`style="@media x"` yields an empty at-rule set. -/
theorem claim9_witness :
    (extractFeatures (fun _ => none) htmlInlineOnly).cssAtRules = [] :=
  claim9_atrules_from_style_tags (fun _ => none) htmlInlineOnly (by decide)
